import Mathlib

/-!
Verification development for the FlightListChk repository
(src/Checklist_Launcher.py and src/chklst.py).

Strings of the Python source are modelled as `List Char`; machine-level
details (tkinter widget layout, subprocess handles, the network) are
modelled by explicit parameters describing the outcome of each external
call.  Every definition below is a shallow embedding of a function or
code path of the source files, with the source location noted in its
doc comment.
-/

namespace FlightListChk

/-! ## Python string primitives -/

/-- Whitespace characters removed by the Python method str.strip
(the ASCII subset, which is all that can occur in the data handled here). -/
def pySpace (c : Char) : Bool :=
  c = ' ' || c = '\t' || c = '\n' || c = '\r' || c = '\x0b' || c = '\x0c'

/-- Model of the Python method str.strip: remove leading and trailing
whitespace characters. -/
def pyStrip (l : List Char) : List Char :=
  ((l.dropWhile pySpace).reverse.dropWhile pySpace).reverse

/-- Model of the Python call str.split(sep) for a one-character separator:
split at every occurrence of the separator. -/
def splitChar (sep : Char) : List Char → List (List Char)
  | [] => [[]]
  | c :: rest =>
    if c = sep then [] :: splitChar sep rest
    else
      match splitChar sep rest with
      | [] => [[c]]
      | h :: t => (c :: h) :: t

/-- Does pat occur at the very start of l. -/
def beginsWith : List Char → List Char → Bool
  | [], _ => true
  | _ :: _, [] => false
  | p :: ps, c :: cs => p = c && beginsWith ps cs

/-- The pattern pat occurs in l starting at position i. -/
def occursAt (pat l : List Char) (i : Nat) : Prop :=
  beginsWith pat (l.drop i) = true

instance (pat l : List Char) (i : Nat) : Decidable (occursAt pat l i) := by
  unfold occursAt; infer_instance

/-- Model of the Python test sep in line followed by line.split(sep, 1):
split at the first occurrence of pat, none when pat does not occur. -/
def splitFirst (pat : List Char) : List Char → Option (List Char × List Char)
  | [] => if beginsWith pat [] then some ([], []) else none
  | c :: rest =>
    if beginsWith pat (c :: rest) then some ([], (c :: rest).drop pat.length)
    else
      match splitFirst pat rest with
      | some (a, b) => some (c :: a, b)
      | none => none

/-- Numeric value of a decimal digit character. -/
def digitVal (c : Char) : Nat := c.toNat - '0'.toNat

/-- Is c a decimal digit. -/
def isDig (c : Char) : Bool := '0' ≤ c && c ≤ '9'

/-- Model of the Python call int(s) on a string of decimal digits. -/
def digitsToNat (l : List Char) : Nat :=
  l.foldl (fun acc c => 10 * acc + digitVal c) 0

/-! ## Model of datetime.strptime(s, "%Y%m%d")

The Python module _strptime compiles the format "%Y%m%d" to the regex
(?P<Y>\d\d\d\d)(?P<m>1[0-2]|0[1-9]|[1-9])(?P<d>3[01]|[12]\d|0[1-9]|[1-9]),
matches it at the start of the string with backtracking (alternatives
tried left to right), raises ValueError when unconverted characters
remain after the match, and finally the datetime constructor rejects
year 0 and a day beyond the length of the month. -/

/-- Leap-year rule of the proleptic Gregorian calendar, as used by the
Python datetime module. -/
def isLeap (y : Nat) : Bool := y % 4 = 0 && (y % 100 ≠ 0 || y % 400 = 0)

/-- Number of days of month m of year y, as validated by the datetime
constructor. -/
def daysInMonth (y m : Nat) : Nat :=
  if m = 2 then (if isLeap y then 29 else 28)
  else if m = 4 || m = 6 || m = 9 || m = 11 then 30
  else 31

/-- First prefix match of the day pattern 3[01]|[12]\d|0[1-9]|[1-9],
alternatives tried in this order; returns the day value and the number
of characters consumed. -/
def dayPrefixMatch : List Char → Option (Nat × Nat)
  | c1 :: c2 :: _ =>
    if c1 = '3' && (c2 = '0' || c2 = '1') then some (30 + digitVal c2, 2)
    else if (c1 = '1' || c1 = '2') && isDig c2 then some (10 * digitVal c1 + digitVal c2, 2)
    else if c1 = '0' && ('1' ≤ c2 && c2 ≤ '9') then some (digitVal c2, 2)
    else if '1' ≤ c1 && c1 ≤ '9' then some (digitVal c1, 1)
    else none
  | [c1] =>
    if '1' ≤ c1 && c1 ≤ '9' then some (digitVal c1, 1) else none
  | [] => none

/-- Month alternative 1[0-2] followed by the day pattern. -/
def monthAlt1 : List Char → Option (Nat × Nat × Nat)
  | '1' :: c2 :: rest =>
    if '0' ≤ c2 && c2 ≤ '2' then
      match dayPrefixMatch rest with
      | some (d, k) => some (10 + digitVal c2, d, 2 + k)
      | none => none
    else none
  | _ => none

/-- Month alternative 0[1-9] followed by the day pattern. -/
def monthAlt2 : List Char → Option (Nat × Nat × Nat)
  | '0' :: c2 :: rest =>
    if '1' ≤ c2 && c2 ≤ '9' then
      match dayPrefixMatch rest with
      | some (d, k) => some (digitVal c2, d, 2 + k)
      | none => none
    else none
  | _ => none

/-- Month alternative [1-9] followed by the day pattern. -/
def monthAlt3 : List Char → Option (Nat × Nat × Nat)
  | c1 :: rest =>
    if '1' ≤ c1 && c1 ≤ '9' then
      match dayPrefixMatch rest with
      | some (d, k) => some (digitVal c1, d, 1 + k)
      | none => none
    else none
  | [] => none

/-- Backtracking match of month then day on the remainder after the year:
the first successful branch in regex order wins; returns
(month, day, characters consumed). -/
def monthDayMatch (r : List Char) : Option (Nat × Nat × Nat) :=
  match monthAlt1 r with
  | some x => some x
  | none =>
    match monthAlt2 r with
    | some x => some x
    | none => monthAlt3 r

/-- Model of the Python call datetime.strptime(s, "%Y%m%d") as described
above; returns (year, month, day) on success.  The month is in 1..12 and
the day at least 1 by construction of the patterns, and a four-digit year
is at most 9999, so only the remaining datetime checks appear explicitly. -/
def strptimeYmd (s : List Char) : Option (Nat × Nat × Nat) :=
  match s with
  | c1 :: c2 :: c3 :: c4 :: r =>
    if isDig c1 && isDig c2 && isDig c3 && isDig c4 then
      let y := digitsToNat [c1, c2, c3, c4]
      match monthDayMatch r with
      | some (m, d, k) =>
        if k = r.length then
          if 1 ≤ y && d ≤ daysInMonth y m then some (y, m, d) else none
        else none
      | none => none
    else none
  | _ => none

/-! ## Launcher: version parsing (src/Checklist_Launcher.py) -/

/-- Version record handled by the launcher: the YYYYMMDD date integer and
the changelog message. -/
structure VersionInfo where
  date_int : Nat
  message : List Char
  deriving DecidableEq

/-- The separator " - " of a manifest line. -/
def sepDashes : List Char := [' ', '-', ' ']

/-- Embedding of ChecklistLauncher._parse_version_info
(src/Checklist_Launcher.py lines 59-86): an empty string gives None; the
first line of the content is stripped; the line must contain " - " and is
split at its first occurrence; the part before the separator is stripped
and must be accepted by datetime.strptime with format "%Y%m%d"; on success
the date string is converted with int() and the remainder of the line,
stripped, is the message. -/
def parse_version_info (content : List Char) : Option VersionInfo :=
  if content = [] then none
  else
    match splitFirst sepDashes (pyStrip ((splitChar '\n' content).headD [])) with
    | none => none
    | some (a, b) =>
      match strptimeYmd (pyStrip a) with
      | some _ => some ⟨digitsToNat (pyStrip a), pyStrip b⟩
      | none => none

/-! ## Launcher: local version bookkeeping and the launch decision -/

/-- Default local version set in ChecklistLauncher.__init__
(src/Checklist_Launcher.py line 46). -/
def defaultLocalVersion : VersionInfo := ⟨20000101, "Initial Install".data⟩

/-- Embedding of ChecklistLauncher._load_local_version (lines 88-100).
The parameter fileContent is the content of version.txt, none when the
file does not exist (FileNotFoundError leaves the current value); the
content is read and stripped, then parsed, and only a successful parse
replaces the current value. -/
def load_local_version (fileContent : Option (List Char)) (current : VersionInfo) : VersionInfo :=
  match fileContent with
  | none => current
  | some c =>
    match parse_version_info (pyStrip c) with
    | some v => v
    | none => current

/-- Embedding of ChecklistLauncher._save_local_version (lines 102-112).
The parameter writeOk records whether the file write raised; the
in-memory field self.local_version_info is assigned only after the write
succeeded. -/
def save_local_version (current : VersionInfo) (writeOk : Bool) (v : VersionInfo) : VersionInfo :=
  if writeOk then v else current

/-- Embedding of the test
self.remote_version_info and self.remote_version_info[date_int] > self.local_version_info[date_int]
(lines 234 and 309): None is falsy, a parsed record is a non-empty dict
and therefore truthy. -/
def needs_update (remote : Option VersionInfo) (lv : VersionInfo) : Bool :=
  match remote with
  | none => false
  | some r => lv.date_int < r.date_int

/-- The three mutually exclusive code paths of handle_launch. -/
inductive LaunchDecision
  | downloadWithoutPrompt
  | showUpdatePrompt
  | launchWithoutDownload
  deriving DecidableEq

/-- Embedding of ChecklistLauncher.handle_launch (lines 303-330):
when FlightList.exe is missing locally the download runs at once with no
prompt; otherwise, when an update is needed, the manual update prompt is
shown; in every remaining case the launch sequence starts directly. -/
def handle_launch (remote : Option VersionInfo) (lv : VersionInfo) (exeExists : Bool) : LaunchDecision :=
  if exeExists = false then .downloadWithoutPrompt
  else if needs_update remote lv then .showUpdatePrompt
  else .launchWithoutDownload

/-! ## Launcher: download core -/

/-- Outcome of the executable download attempt inside
_download_update_core: either every byte was fetched and written, or one
of the four handled exception classes was raised somewhere in the try
block. -/
inductive DownloadOutcome
  | success
  | httpError
  | connectionError
  | timeoutError
  | otherError
  deriving DecidableEq

/-- Observable result of _download_update_core: the boolean return value,
whether FlightList.exe was fully written, the in-memory local version
afterwards, and whether _save_local_version was invoked. -/
structure DownloadResult where
  returned : Bool
  exeFileWritten : Bool
  versionAfter : VersionInfo
  versionSaveAttempted : Bool
  deriving DecidableEq

/-- Embedding of ChecklistLauncher._download_update_core (lines 387-429).
On a successful download and file write, the local version tag is saved
only when self.remote_version_info is set; every handled exception makes
the function return False without touching the version info. -/
def download_update_core (lv : VersionInfo) (remote : Option VersionInfo)
    (outcome : DownloadOutcome) (versionWriteOk : Bool) : DownloadResult :=
  match outcome with
  | .success =>
    match remote with
    | some v => ⟨true, true, save_local_version lv versionWriteOk v, true⟩
    | none => ⟨true, true, lv, false⟩
  | _ => ⟨false, false, lv, false⟩

/-! ## Launcher: retry loop of _make_request_with_backoff -/

/-- Outcome of one requests.request call: the call raised a
RequestException, or it returned a response with the given status code. -/
inductive AttemptOutcome
  | raises
  | returns (status : Nat)
  deriving DecidableEq

/-- Events observable from the retry loop.  The constructor scheduleNoop
records the call tk.Misc.after(self, ms, noop), which only registers a
tkinter timer callback and returns immediately; sleepMs would record an
actual blocking wait of the stated duration, and is never emitted because
the loop contains no blocking call between attempts. -/
inductive ReqEvent
  | attempt (i : Nat)
  | scheduleNoop (ms : Nat)
  | sleepMs (ms : Nat)
  deriving DecidableEq

/-- Does iteration i of the loop end in the except clause: either the
request itself raised, or the status code is 4xx and
response.raise_for_status() raised HTTPError, a subclass of
RequestException caught by the same handler (lines 192-194). -/
def attemptRaises (o : AttemptOutcome) : Bool :=
  match o with
  | .raises => true
  | .returns s => 400 ≤ s && s < 500

/-- Embedding of the for-loop of _make_request_with_backoff
(lines 184-205) with max_retries = 3 and initial delay 1.  The argument
remaining counts loop iterations left, i is the loop index and delay the
current backoff parameter.  A raising non-final iteration prints, calls
tk.Misc.after(self, delay*1000, noop) - which schedules a timer and
returns at once - doubles delay and continues; a raising final iteration
re-raises (the error value is the index of the raising attempt); a
non-raising iteration returns its response status. -/
def backoffLoop (env : Nat → AttemptOutcome) :
    Nat → Nat → Nat → List ReqEvent × Except Nat Nat
  | 0, _, _ => ([], .error 99)
  | remaining + 1, i, delay =>
    if attemptRaises (env i) then
      if remaining = 0 then ([.attempt i], .error i)
      else
        let rest := backoffLoop env remaining (i + 1) (delay * 2)
        (.attempt i :: .scheduleNoop (delay * 1000) :: rest.1, rest.2)
    else
      match env i with
      | .returns s => ([.attempt i], .ok s)
      | .raises => ([.attempt i], .error i)

/-- Embedding of _make_request_with_backoff: run the loop with
max_retries = 3, first attempt index 0, initial delay 1. -/
def make_request_with_backoff (env : Nat → AttemptOutcome) :
    List ReqEvent × Except Nat Nat :=
  backoffLoop env 3 0 1

/-- Total blocking time, in milliseconds, spent inside a list of retry
loop events. -/
def sleptTotal (tr : List ReqEvent) : Nat :=
  (tr.map fun e => match e with | .sleepMs n => n | _ => 0).sum

/-! ## Launcher: launch sequence -/

/-- Events of the launch sequence.  afterDelay ms records a call
self.after(ms, continuation): everything after it in the list happens in
the continuation, ms milliseconds later. -/
inductive LaunchEvent
  | spawnChecklist
  | afterDelay (ms : Nat)
  | spawnSim
  | destroyWindow
  deriving DecidableEq

/-- Embedding of ChecklistLauncher._launch_sim_and_close (lines 503-521):
when the simulator path is set and exists on disk, the simulator is
spawned (no event when Popen raises, the exception being caught); in
every case the launcher window destruction is scheduled 500 ms later. -/
def launch_sim_and_close (simPathSet simPathExists simSpawnOk : Bool) : List LaunchEvent :=
  if simPathSet && simPathExists then
    (if simSpawnOk then [LaunchEvent.spawnSim] else [])
      ++ [.afterDelay 500, .destroyWindow]
  else [.afterDelay 500, .destroyWindow]

/-- Embedding of ChecklistLauncher._launch_checklist_sim_sequence
(lines 523-552): when FlightList.exe is missing, or its Popen raises, the
window is destroyed and nothing else happens; otherwise the checklist is
spawned and _launch_sim_and_close is scheduled 5000 ms later. -/
def launch_checklist_sim_sequence
    (exeExists chkSpawnOk simPathSet simPathExists simSpawnOk : Bool) : List LaunchEvent :=
  if exeExists = false then [.afterDelay 500, .destroyWindow]
  else if chkSpawnOk = false then [.afterDelay 500, .destroyWindow]
  else .spawnChecklist :: .afterDelay 5000 ::
    launch_sim_and_close simPathSet simPathExists simSpawnOk

/-! ## Viewer: checklist structure (src/chklst.py) -/

/-- One entry returned by os.listdir on the Lists directory, together
with the os.path.isdir test used to keep only aircraft folders. -/
structure DirEntry where
  name : List Char
  isDirectory : Bool
  deriving DecidableEq

/-- The Python string order: lexicographic comparison of code points. -/
def lexLe : List Char → List Char → Bool
  | [], _ => true
  | _ :: _, [] => false
  | a :: as, b :: bs =>
    if a.toNat < b.toNat then true
    else if b.toNat < a.toNat then false
    else lexLe as bs

/-- The Python string order as a relation. -/
def lexLeP (a b : List Char) : Prop := lexLe a b = true

instance lexLeP.decRel : DecidableRel lexLeP :=
  fun a b => inferInstanceAs (Decidable (lexLe a b = true))

/-- Model of the Python builtin sorted on a list of strings.  Python uses
a stable sort under the lexicographic order; the output of a stable sort
is uniquely determined by the input and the total preorder, so insertion
sort computes the same list. -/
def pySorted (l : List (List Char)) : List (List Char) := List.insertionSort lexLeP l

/-- Does the name end in ".txt", as tested by f.endswith(".txt"). -/
def endsWithTxt (l : List Char) : Bool := beginsWith ['t', 'x', 't', '.'] l.reverse

/-- Embedding of the tab construction of FlightList.load_checklist_structure
(src/chklst.py lines 126-145): aircraft_folders keeps the entries of the
Lists directory that are directories, and the tabs are created iterating
sorted(aircraft_folders). -/
def tabs_order (entries : List DirEntry) : List (List Char) :=
  pySorted ((entries.filter (fun e => e.isDirectory)).map (fun e => e.name))

/-- Embedding of the per-aircraft ordered file list of
load_checklist_structure (lines 185-189):
checklist_files = sorted(f for f in listdir(aircraft folder) if f.endswith(".txt")),
stored under the key ORDER for the progression logic. -/
def checklist_files_order (files : List (List Char)) : List (List Char) :=
  pySorted (files.filter endsWithTxt)

/-! ## Viewer: rendering one checklist (show_checklist) -/

/-- Embedding of the line list built in FlightList.show_checklist
(src/chklst.py line 239): lines = [line.strip() for line in f if line.strip()],
where iterating the file object yields the newline-separated lines of the
file content; one checkbox is then created per element, in order, with the
element as its label. -/
def show_checklist_lines (content : List Char) : List (List Char) :=
  ((splitChar '\n' content).filter (fun l => pyStrip l ≠ [])).map pyStrip

/-! ## Viewer: checkbox click and progression -/

/-- Embedding of the completion count of handle_checkbox_click
(line 290): sum(1 for active_var in self.active_vars if active_var.get()). -/
def completedCount (activeVars : List Bool) : Nat :=
  (activeVars.filter (fun v => v)).length

/-- Outcome of progress_to_next_checklist: the next file is selected in
the Treeview (which triggers show_checklist on it), or the title reports
the sequence complete, or the current file was missing from the order
list (the ValueError branch, which only prints). -/
inductive ProgressOutcome
  | advanceTo (next : List Char)
  | sequenceComplete
  | currentMissingFromOrder
  deriving DecidableEq

/-- Model of the Python call list.index wrapped in try/except ValueError:
position of the first occurrence, none when absent. -/
def pyIndex : List (List Char) → List Char → Option Nat
  | [], _ => none
  | x :: xs, t => if x = t then some 0 else (pyIndex xs t).map (fun n => n + 1)

/-- Embedding of FlightList.progress_to_next_checklist (src/chklst.py
lines 304-338).  fileOrder is the ORDER list of the aircraft, treeItems
the filenames stored in the Treeview rows in insertion order; the next
filename is the entry of fileOrder immediately after the current one, and
it is looked up among the rows, falling back to the sequence-complete
message when no row carries it. -/
def progress_to_next_checklist (fileOrder treeItems : List (List Char))
    (current : List Char) : ProgressOutcome :=
  match pyIndex fileOrder current with
  | none => .currentMissingFromOrder
  | some i =>
    if h : i + 1 < fileOrder.length then
      let next := fileOrder.get ⟨i + 1, h⟩
      match treeItems.find? (fun f => f == next) with
      | some _ => .advanceTo next
      | none => .sequenceComplete
    else .sequenceComplete

/-- Model of the Python dict update d[k] = v on an association list with
at most one entry per key: replace the first binding of k, append when
absent. -/
def dictSet (m : List (Nat × Bool)) (k : Nat) (v : Bool) : List (Nat × Bool) :=
  match m with
  | [] => [(k, v)]
  | (k2, v2) :: rest => if k2 = k then (k, v) :: rest else (k2, v2) :: dictSet rest k v

/-- Embedding of FlightList.handle_checkbox_click (src/chklst.py
lines 279-301).  activeVars is self.active_vars after the click toggled
entry index, so var.get() is activeVars[index]; the in-memory map entry
is set to that value, and when the completed count reaches total_items
(the len(lines) captured at creation) the progression runs (scheduled
500 ms later); otherwise only the status text changes. -/
def handle_checkbox_click (stateMap : List (Nat × Bool)) (activeVars : List Bool)
    (index : Nat) (totalItems : Nat)
    (fileOrder treeItems : List (List Char)) (current : List Char) :
    List (Nat × Bool) × Option ProgressOutcome :=
  let newMap := dictSet stateMap index (activeVars.getD index false)
  if completedCount activeVars = totalItems then
    (newMap, some (progress_to_next_checklist fileOrder treeItems current))
  else (newMap, none)

/-! ## Viewer: uncheck_all -/

/-- Lookup of the first binding of a key in an association list. -/
def alistLookup {α β : Type} [DecidableEq α] : List (α × β) → α → Option β
  | [], _ => none
  | (k, v) :: rest, t => if k = t then some v else alistLookup rest t

/-- Model of the Python dict update d[k] = v on an association list:
replace the first binding of k, append when absent. -/
def alistSet {α β : Type} [DecidableEq α] : List (α × β) → α → β → List (α × β)
  | [], k, v => [(k, v)]
  | (k2, v2) :: rest, k, v =>
    if k2 = k then (k, v) :: rest else (k2, v2) :: alistSet rest k v

/-- Per-aircraft slice of the global CHECKLIST_STATES dict: the ORDER
list of filenames and, per checklist filename, the map from line index to
checked state.  (The TREEVIEW entry holds a widget and is modelled where
needed by the treeItems parameter.) -/
structure AircraftState where
  fileOrder : List (List Char)
  fileStates : List (List Char × List (Nat × Bool))
  deriving DecidableEq

/-- The viewer state touched by uncheck_all: CHECKLIST_STATES, the
current selection, and the displayed BooleanVars. -/
structure ViewerState where
  states : List (List Char × AircraftState)
  current_aircraft : Option (List Char)
  current_filename : Option (List Char)
  active_vars : List Bool
  deriving DecidableEq

/-- Embedding of FlightList.uncheck_all (src/chklst.py lines 341-363).
With no current checklist the method returns at once.  Otherwise
CHECKLIST_STATES[aircraft] is read - none models the KeyError that
Python would raise there, before any mutation - then every displayed
BooleanVar is set to False and every key of the state map of the current
file is set to False (dict.get(filename, empty dict) yields a fresh dict
when the file has no map, so writes to it are dropped). -/
def uncheck_all (st : ViewerState) : Option ViewerState :=
  match st.current_aircraft, st.current_filename with
  | some a, some f =>
    match alistLookup st.states a with
    | none => none
    | some ast =>
      let newVars := st.active_vars.map (fun _ => false)
      let newAst :=
        match alistLookup ast.fileStates f with
        | some m =>
          { ast with fileStates := alistSet ast.fileStates f (m.map (fun p => (p.1, false))) }
        | none => ast
      some { st with active_vars := newVars, states := alistSet st.states a newAst }
  | _, _ => some st

/-! ## Helper lemmas -/

theorem filter_map_eq_filterMap {α β : Type} (p : α → Bool) (f : α → β) (l : List α) :
    (l.filter p).map f = l.filterMap (fun x => if p x then some (f x) else none) := by
  induction l with
  | nil => rfl
  | cons a t ih =>
    by_cases h : p a = true <;> simp [List.filter_cons, h, ih]

theorem completedCount_eq_length_iff (l : List Bool) :
    completedCount l = l.length ↔ ∀ v ∈ l, v = true := by
  induction l with
  | nil => simp [completedCount]
  | cons a t ih =>
    cases a with
    | true => simp [completedCount, List.filter_cons, ih]
    | false =>
      simp only [completedCount, List.filter_cons]
      have hle := List.length_filter_le (fun v => v) t
      constructor
      · intro h
        exfalso
        simp only [completedCount] at h
        simp at h
        omega
      · intro h
        exact absurd (h false (by simp)) (by simp)

theorem lexLe_total : ∀ a b : List Char, lexLeP a b ∨ lexLeP b a
  | [], _ => Or.inl rfl
  | _ :: _, [] => Or.inr rfl
  | a :: as, b :: bs => by
    unfold lexLeP lexLe
    rcases Nat.lt_trichotomy a.toNat b.toNat with h | h | h
    · left; rw [if_pos h]
    · have h1 : ¬ a.toNat < b.toNat := by omega
      have h2 : ¬ b.toNat < a.toNat := by omega
      rcases lexLe_total as bs with ih | ih
      · left; rw [if_neg h1, if_neg h2]; exact ih
      · right; rw [if_neg h2, if_neg h1]; exact ih
    · right; rw [if_pos h]

theorem lexLe_trans : ∀ a b c : List Char, lexLeP a b → lexLeP b c → lexLeP a c
  | [], _, _, _, _ => rfl
  | _ :: _, [], _, h, _ => absurd h (by simp [lexLeP, lexLe])
  | _ :: _, _ :: _, [], _, h => absurd h (by simp [lexLeP, lexLe])
  | a :: as, b :: bs, c :: cs, h1, h2 => by
    unfold lexLeP lexLe at h1 h2 ⊢
    rcases Nat.lt_trichotomy a.toNat b.toNat with hab | hab | hab
    · rcases Nat.lt_trichotomy b.toNat c.toNat with hbc | hbc | hbc
      · rw [if_pos (show a.toNat < c.toNat by omega)]
      · rw [if_pos (show a.toNat < c.toNat by omega)]
      · rw [if_neg (show ¬ b.toNat < c.toNat by omega), if_pos hbc] at h2
        exact absurd h2 (by simp)
    · rcases Nat.lt_trichotomy b.toNat c.toNat with hbc | hbc | hbc
      · rw [if_pos (show a.toNat < c.toNat by omega)]
      · rw [if_neg (show ¬ a.toNat < b.toNat by omega),
          if_neg (show ¬ b.toNat < a.toNat by omega)] at h1
        rw [if_neg (show ¬ b.toNat < c.toNat by omega),
          if_neg (show ¬ c.toNat < b.toNat by omega)] at h2
        rw [if_neg (show ¬ a.toNat < c.toNat by omega),
          if_neg (show ¬ c.toNat < a.toNat by omega)]
        exact lexLe_trans as bs cs h1 h2
      · rw [if_neg (show ¬ b.toNat < c.toNat by omega), if_pos hbc] at h2
        exact absurd h2 (by simp)
    · rw [if_neg (show ¬ a.toNat < b.toNat by omega), if_pos hab] at h1
      exact absurd h1 (by simp)

theorem find?_beq_self : ∀ (l : List (List Char)) (x : List Char),
    x ∈ l → l.find? (fun f => f == x) = some x
  | [], x, h => absurd h (List.not_mem_nil x)
  | a :: t, x, h => by
    by_cases ha : (a == x) = true
    · have hax : a = x := by simpa using ha
      simp [List.find?_cons, ha, hax]
    · have hx : x ∈ t := by
        rcases List.mem_cons.mp h with rfl | hm
        · exact absurd (by simp) ha
        · exact hm
      simp [List.find?_cons, ha, find?_beq_self t x hx]

theorem alistLookup_set_self {α β : Type} [DecidableEq α] :
    ∀ (l : List (α × β)) (k : α) (v : β), alistLookup (alistSet l k v) k = some v
  | [], k, v => by simp [alistSet, alistLookup]
  | (k2, v2) :: rest, k, v => by
    by_cases h : k2 = k
    · simp [alistSet, h, alistLookup]
    · simp [alistSet, h, alistLookup, alistLookup_set_self rest k v]

theorem alistLookup_set_other {α β : Type} [DecidableEq α] :
    ∀ (l : List (α × β)) (k k2 : α) (v : β), k2 ≠ k →
      alistLookup (alistSet l k v) k2 = alistLookup l k2
  | [], k, k2, v, h => by
    have hne : ¬ k = k2 := fun he => h he.symm
    simp [alistSet, alistLookup, hne]
  | (k3, v3) :: rest, k, k2, v, h => by
    unfold alistSet
    by_cases h3 : k3 = k
    · rw [if_pos h3]
      have hne : ¬ k = k2 := fun he => h he.symm
      have hne3 : ¬ k3 = k2 := h3 ▸ hne
      simp [alistLookup, hne, hne3]
    · rw [if_neg h3]
      unfold alistLookup
      by_cases h2 : k3 = k2
      · rw [if_pos h2, if_pos h2]
      · rw [if_neg h2, if_neg h2]
        exact alistLookup_set_other rest k k2 v h

theorem splitChar_ne_nil (sep : Char) : ∀ l : List Char, splitChar sep l ≠ []
  | [] => by simp [splitChar]
  | c :: rest => by
    unfold splitChar
    by_cases h : c = sep
    · simp [h]
    · rw [if_neg h]
      cases splitChar sep rest <;> simp

theorem headD_splitChar (sep : Char) : ∀ l : List Char,
    (splitChar sep l).headD [] = l.takeWhile (fun c => c ≠ sep)
  | [] => rfl
  | c :: rest => by
    unfold splitChar
    by_cases h : c = sep
    · subst h
      rw [if_pos rfl]
      simp [List.takeWhile_cons]
    · rw [if_neg h]
      have ih := headD_splitChar sep rest
      cases hs : splitChar sep rest with
      | nil => exact absurd hs (splitChar_ne_nil sep rest)
      | cons hd tl =>
        rw [hs] at ih
        have ih2 : hd = rest.takeWhile (fun c => c ≠ sep) := ih
        simp [List.takeWhile_cons, h, ih2]

theorem dropWhile_shape {α : Type} (p : α → Bool) : ∀ l : List α,
    l.dropWhile p = [] ∨ ∃ c t, l.dropWhile p = c :: t ∧ p c = false
  | [] => Or.inl rfl
  | a :: t => by
    rw [List.dropWhile_cons]
    by_cases h : p a = true
    · rw [if_pos h]
      exact dropWhile_shape p t
    · rw [if_neg h]
      exact Or.inr ⟨a, t, rfl, by simpa using h⟩

theorem takeWhile_decomp_forward {α : Type} (p : α → Bool) :
    ∀ (line0 content rest : List α), content = line0 ++ rest →
      (∀ c ∈ line0, p c = true) →
      (rest = [] ∨ ∃ c t, rest = c :: t ∧ p c = false) →
      line0 = content.takeWhile p ∧ rest = content.dropWhile p
  | [], content, rest, hc, _, hr => by
    subst hc
    rcases hr with rfl | ⟨c, t, rfl, hpc⟩
    · simp
    · simp [List.takeWhile_cons, List.dropWhile_cons, hpc]
  | a :: l0, content, rest, hc, hall, hr => by
    subst hc
    have hpa : p a = true := hall a (by simp)
    have ih := takeWhile_decomp_forward p l0 (l0 ++ rest) rest rfl
      (fun c hcm => hall c (by simp [hcm])) hr
    refine ⟨?_, ?_⟩
    · rw [List.cons_append, List.takeWhile_cons, if_pos hpa, ← ih.1]
    · rw [List.cons_append, List.dropWhile_cons, if_pos hpa]
      exact ih.2

theorem takeWhile_decomp {α : Type} (p : α → Bool) (content line0 rest : List α) :
    (content = line0 ++ rest ∧ (∀ c ∈ line0, p c = true)
      ∧ (rest = [] ∨ ∃ c t, rest = c :: t ∧ p c = false))
    ↔ (line0 = content.takeWhile p ∧ rest = content.dropWhile p) := by
  constructor
  · rintro ⟨hc, hall, hr⟩
    exact takeWhile_decomp_forward p line0 content rest hc hall hr
  · rintro ⟨rfl, rfl⟩
    exact ⟨(List.takeWhile_append_dropWhile p content).symm,
      fun c hc => List.mem_takeWhile_imp hc, dropWhile_shape p content⟩

theorem beginsWith_iff_append : ∀ (pat l : List Char),
    beginsWith pat l = true ↔ ∃ s, l = pat ++ s
  | [], l => by simp [beginsWith]
  | p :: ps, [] => by simp [beginsWith]
  | p :: ps, c :: cs => by
    rw [show beginsWith (p :: ps) (c :: cs) = (decide (p = c) && beginsWith ps cs) from rfl]
    simp only [Bool.and_eq_true, decide_eq_true_eq, List.cons_append]
    constructor
    · rintro ⟨rfl, h⟩
      obtain ⟨s, rfl⟩ := (beginsWith_iff_append ps cs).mp h
      exact ⟨s, rfl⟩
    · rintro ⟨s, hs⟩
      injection hs with h1 h2
      subst h1
      exact ⟨rfl, (beginsWith_iff_append ps cs).mpr ⟨s, h2⟩⟩

theorem splitFirst_sound (p : Char) (ps : List Char) :
    ∀ (l a b : List Char), splitFirst (p :: ps) l = some (a, b) →
      l = a ++ (p :: ps) ++ b
      ∧ ∀ i, i < a.length → beginsWith (p :: ps) (l.drop i) = false
  | [], a, b, h => by
    unfold splitFirst at h
    simp [beginsWith] at h
  | c :: rest, a, b, h => by
    by_cases hb : beginsWith (p :: ps) (c :: rest) = true
    · unfold splitFirst at h
      rw [if_pos hb] at h
      obtain ⟨s, hs⟩ := (beginsWith_iff_append (p :: ps) (c :: rest)).mp hb
      injection h with h'
      obtain ⟨rfl, rfl⟩ := Prod.ext_iff.mp h'.symm
      constructor
      · rw [hs, List.drop_left]
        simp
      · intro i hi
        simp at hi
    · unfold splitFirst at h
      rw [if_neg hb] at h
      cases hsf : splitFirst (p :: ps) rest with
      | none =>
        rw [hsf] at h
        simp at h
      | some pr =>
        obtain ⟨a2, b2⟩ := pr
        rw [hsf] at h
        simp only at h
        injection h with h'
        injection h' with h1 h2
        subst h1
        subst h2
        have ih := splitFirst_sound p ps rest a2 b2 hsf
        constructor
        · have := ih.1
          simp only [List.append_assoc, List.cons_append] at this ⊢
          rw [this]
        · intro i hi
          cases i with
          | zero => exact Bool.eq_false_iff.mpr hb
          | succ j =>
            have hj : j < a2.length := by simpa using hi
            exact ih.2 j hj

theorem splitFirst_complete (p : Char) (ps : List Char) :
    ∀ (a l b : List Char), l = a ++ (p :: ps) ++ b →
      (∀ i, i < a.length → beginsWith (p :: ps) (l.drop i) = false) →
      splitFirst (p :: ps) l = some (a, b)
  | [], l, b, hl, _ => by
    subst hl
    simp only [List.nil_append, List.cons_append]
    unfold splitFirst
    rw [if_pos ((beginsWith_iff_append (p :: ps) (p :: (ps ++ b))).mpr ⟨b, rfl⟩)]
    have hd : (p :: (ps ++ b)).drop (p :: ps).length = b := List.drop_left (p :: ps) b
    rw [hd]
  | c2 :: a2, l, b, hl, hocc => by
    subst hl
    have h0 : beginsWith (p :: ps) (((c2 :: a2) ++ (p :: ps) ++ b).drop 0) = false :=
      hocc 0 (by simp)
    simp only [List.append_assoc, List.cons_append, List.drop] at h0 ⊢
    unfold splitFirst
    rw [if_neg (by simp [h0])]
    have ih := splitFirst_complete p ps a2 (a2 ++ (p :: ps) ++ b) b rfl (fun i hi => by
      have := hocc (i + 1) (by simpa using Nat.succ_lt_succ hi)
      simpa using this)
    simp only [List.append_assoc, List.cons_append] at ih
    rw [ih]

/-! ## Claim theorems -/

/-- C1: in handle_launch the manual update prompt is shown exactly when
the remote manifest was fetched, its date integer is strictly greater
than the local one, and FlightList.exe exists locally; a missing local
executable leads to the download path with no prompt; in every other
case (no remote manifest, or remote date not greater) the launch runs
with no download. -/
theorem handle_launch_cases (remote : Option VersionInfo) (lv : VersionInfo) (exeExists : Bool) :
    (handle_launch remote lv exeExists = .showUpdatePrompt ↔
      (∃ r, remote = some r ∧ lv.date_int < r.date_int) ∧ exeExists = true)
    ∧ (exeExists = false → handle_launch remote lv exeExists = .downloadWithoutPrompt)
    ∧ (exeExists = true ∧ (remote = none ∨ ∃ r, remote = some r ∧ r.date_int ≤ lv.date_int) →
        handle_launch remote lv exeExists = .launchWithoutDownload) := by
  cases remote with
  | none => cases exeExists <;> simp [handle_launch, needs_update]
  | some r =>
    cases exeExists with
    | false => simp [handle_launch, needs_update]
    | true =>
      by_cases h : lv.date_int < r.date_int <;>
        simp [handle_launch, needs_update, h]

/-- C6 (failing input): with every request attempt raising a
RequestException, the retry loop of _make_request_with_backoff makes
exactly three attempts, schedules no-op tkinter callbacks with the
doubling delays 1000 ms and 2000 ms, blocks for 0 ms in total between
the attempts, and propagates the exception of the final attempt. -/
theorem backoff_schedules_but_never_sleeps :
    make_request_with_backoff (fun _ => .raises)
      = ([.attempt 0, .scheduleNoop 1000, .attempt 1, .scheduleNoop 2000, .attempt 2],
         .error 2)
    ∧ sleptTotal (make_request_with_backoff (fun _ => .raises)).1 = 0 :=
  ⟨rfl, rfl⟩

/-- C7 (counterexample): the file content "A", blank line, "B" has three
lines, yet show_checklist creates only two checkboxes; and a line with
surrounding whitespace is rendered with the stripped text as its label,
not the raw line. -/
theorem show_checklist_blank_line_dropped :
    (splitChar '\n' ("A\n\nB".data)).length = 3
    ∧ (show_checklist_lines ("A\n\nB".data)).length = 2
    ∧ show_checklist_lines (" A ".data) = ["A".data] := by decide

/-- C7 (amended): show_checklist renders one checkbox per non-blank line
of the file, in file order, with the label equal to the line stripped of
leading and trailing whitespace; blank (whitespace-only) lines yield no
checkbox. -/
theorem show_checklist_lines_spec (content : List Char) :
    show_checklist_lines content
      = (splitChar '\n' content).filterMap
          (fun l => if pyStrip l = [] then none else some (pyStrip l))
    ∧ ∀ x ∈ show_checklist_lines content,
        x ≠ [] ∧ ∃ raw ∈ splitChar '\n' content, x = pyStrip raw := by
  constructor
  · rw [show_checklist_lines, filter_map_eq_filterMap]
    apply List.filterMap_congr
    intro x _
    by_cases h : pyStrip x = [] <;> simp [h]
  · intro x hx
    simp only [show_checklist_lines, List.mem_map, List.mem_filter] at hx
    obtain ⟨raw, ⟨hraw, hne⟩, rfl⟩ := hx
    refine ⟨by simpa using hne, raw, hraw, rfl⟩

/-- C8: _download_update_core changes the stored local version only when
the download and the file write fully succeeded, the remote manifest was
fetched, and the version file write itself succeeded, in which case the
new value is the remote manifest record; on any handled download error
it returns False with the state untouched; on success with no fetched
manifest the version is likewise left unchanged. -/
theorem download_core_version_update (lv : VersionInfo) (remote : Option VersionInfo)
    (outcome : DownloadOutcome) (versionWriteOk : Bool) :
    ((download_update_core lv remote outcome versionWriteOk).versionAfter = lv
      ∨ (outcome = .success ∧ versionWriteOk = true
          ∧ remote = some (download_update_core lv remote outcome versionWriteOk).versionAfter
          ∧ (download_update_core lv remote outcome versionWriteOk).exeFileWritten = true))
    ∧ (outcome ≠ .success →
        download_update_core lv remote outcome versionWriteOk = ⟨false, false, lv, false⟩)
    ∧ (outcome = .success → remote = none →
        (download_update_core lv remote outcome versionWriteOk).versionAfter = lv
        ∧ (download_update_core lv remote outcome versionWriteOk).returned = true) := by
  cases outcome <;> cases remote <;> cases versionWriteOk <;>
    simp [download_update_core, save_local_version]

/-- C10: when version.txt is absent the local version stays at the
default date integer 20000101 with message "Initial Install"; when it is
present the parsed value is used and a failed parse keeps the default;
and against the default, an update is considered available exactly for a
remote manifest date integer strictly greater than 20000101. -/
theorem fresh_install_default_version (c : List Char) (r : VersionInfo) :
    load_local_version none defaultLocalVersion = ⟨20000101, "Initial Install".data⟩
    ∧ load_local_version (some c) defaultLocalVersion
        = (parse_version_info (pyStrip c)).getD defaultLocalVersion
    ∧ needs_update (some r) defaultLocalVersion = decide (20000101 < r.date_int) := by
  refine ⟨rfl, ?_, rfl⟩
  unfold load_local_version
  cases h : parse_version_info (pyStrip c) <;> simp [h]

/-- C3: in every run of the launch sequence the checklist process is
spawned strictly before the simulator process with the scheduled 5000 ms
delay in between and the window destruction scheduled afterwards; the
simulator is spawned exactly when the checklist launch fully succeeded
and the simulator path is set, exists on disk and its spawn succeeds; in
particular the simulator is never spawned when FlightList.exe is missing
or its spawn fails; the window is always destroyed last. -/
theorem launch_sequence_ordering
    (exeExists chkSpawnOk simPathSet simPathExists simSpawnOk : Bool) :
    (LaunchEvent.spawnSim ∈
        launch_checklist_sim_sequence exeExists chkSpawnOk simPathSet simPathExists simSpawnOk →
      launch_checklist_sim_sequence exeExists chkSpawnOk simPathSet simPathExists simSpawnOk
        = [.spawnChecklist, .afterDelay 5000, .spawnSim, .afterDelay 500, .destroyWindow])
    ∧ (LaunchEvent.spawnSim ∈
        launch_checklist_sim_sequence exeExists chkSpawnOk simPathSet simPathExists simSpawnOk
        ↔ (exeExists && chkSpawnOk && simPathSet && simPathExists && simSpawnOk) = true)
    ∧ (launch_checklist_sim_sequence exeExists chkSpawnOk simPathSet
        simPathExists simSpawnOk).getLast? = some .destroyWindow
    ∧ ((exeExists = false ∨ chkSpawnOk = false) →
        LaunchEvent.spawnSim ∉
          launch_checklist_sim_sequence exeExists chkSpawnOk simPathSet simPathExists simSpawnOk)
    ∧ (LaunchEvent.spawnChecklist ∈
        launch_checklist_sim_sequence exeExists chkSpawnOk simPathSet simPathExists simSpawnOk
        ↔ (exeExists && chkSpawnOk) = true) := by
  cases exeExists <;> cases chkSpawnOk <;> cases simPathSet <;>
    cases simPathExists <;> cases simSpawnOk <;>
    refine ⟨?_, ?_, ?_, ?_, ?_⟩ <;> decide

/-- C5: the per-aircraft ordered file list contains exactly the entries
of the aircraft folder whose names end in ".txt", arranged in ascending
lexicographic order of the full filename, and the aircraft tabs are
created in ascending lexicographic order of folder name. -/
theorem checklist_structure_sorted (entries : List DirEntry) (files : List (List Char)) :
    List.Perm (checklist_files_order files) (files.filter endsWithTxt)
    ∧ List.Sorted lexLeP (checklist_files_order files)
    ∧ (∀ x, x ∈ checklist_files_order files ↔ x ∈ files ∧ endsWithTxt x = true)
    ∧ List.Perm (tabs_order entries)
        ((entries.filter (fun e => e.isDirectory)).map (fun e => e.name))
    ∧ List.Sorted lexLeP (tabs_order entries) := by
  haveI : IsTotal (List Char) lexLeP := ⟨lexLe_total⟩
  haveI : IsTrans (List Char) lexLeP := ⟨lexLe_trans⟩
  refine ⟨List.perm_insertionSort _ _, List.sorted_insertionSort _ _, ?_,
    List.perm_insertionSort _ _, List.sorted_insertionSort _ _⟩
  intro x
  rw [show checklist_files_order files
      = List.insertionSort lexLeP (files.filter endsWithTxt) from rfl,
    (List.perm_insertionSort lexLeP (files.filter endsWithTxt)).mem_iff,
    List.mem_filter]

/-- C4: after a checkbox click the progression runs exactly when every
item of the displayed checklist is checked; when it runs, its outcome is
the progression computed from the stored order; the progression selects
the file at the position immediately after the current file in the
stored order, and reports the sequence complete when the current file is
the last one. -/
theorem checkbox_click_progression (stateMap : List (Nat × Bool)) (activeVars : List Bool)
    (index : Nat) (fileOrder : List (List Char)) (current : List Char) :
    (((handle_checkbox_click stateMap activeVars index activeVars.length
        fileOrder fileOrder current).2).isSome = true ↔ ∀ v ∈ activeVars, v = true)
    ∧ ((handle_checkbox_click stateMap activeVars index activeVars.length
        fileOrder fileOrder current).2 = none
      ∨ (handle_checkbox_click stateMap activeVars index activeVars.length
          fileOrder fileOrder current).2
          = some (progress_to_next_checklist fileOrder fileOrder current))
    ∧ (match pyIndex fileOrder current with
       | none =>
         progress_to_next_checklist fileOrder fileOrder current = .currentMissingFromOrder
       | some i =>
         if i + 1 < fileOrder.length then
           progress_to_next_checklist fileOrder fileOrder current
             = .advanceTo (fileOrder.getD (i + 1) [])
         else
           progress_to_next_checklist fileOrder fileOrder current = .sequenceComplete) := by
  have hsnd : (handle_checkbox_click stateMap activeVars index activeVars.length
      fileOrder fileOrder current).2
      = if completedCount activeVars = activeVars.length
        then some (progress_to_next_checklist fileOrder fileOrder current)
        else none := by
    unfold handle_checkbox_click
    by_cases h : completedCount activeVars = activeVars.length <;> simp [h]
  refine ⟨?_, ?_, ?_⟩
  · rw [hsnd, ← completedCount_eq_length_iff]
    by_cases h : completedCount activeVars = activeVars.length <;> simp [h]
  · rw [hsnd]
    by_cases h : completedCount activeVars = activeVars.length <;> simp [h]
  · cases hidx : pyIndex fileOrder current with
    | none => simp [progress_to_next_checklist, hidx]
    | some i =>
      dsimp only
      by_cases hlt : i + 1 < fileOrder.length
      · rw [if_pos hlt]
        unfold progress_to_next_checklist
        rw [hidx]
        simp only [hlt, dif_pos]
        rw [find?_beq_self fileOrder _ (List.get_mem fileOrder (i + 1) hlt)]
        have : fileOrder.getD (i + 1) [] = fileOrder.get ⟨i + 1, hlt⟩ := by
          rw [List.getD_eq_getElem?_getD, List.getElem?_eq_getElem hlt]
          rfl
        rw [this]
      · rw [if_neg hlt]
        unfold progress_to_next_checklist
        rw [hidx]
        simp only [hlt, dif_neg, not_false_iff]

/-- C9: with a checklist displayed, uncheck_all sets every displayed
BooleanVar and every entry of the in-memory state map of the current
checklist to False, keeps the selection and the stored order, and leaves
the stored state of every other checklist file and of every other
aircraft unchanged; with no current checklist it changes nothing.  (When
the current aircraft key is absent - which show_checklist prevents - the
Python code raises KeyError before any mutation, modelled by none.) -/
theorem uncheck_all_effect (st : ViewerState) :
    (match st.current_aircraft, st.current_filename with
     | some a, some f =>
       match alistLookup st.states a with
       | none => uncheck_all st = none
       | some ast =>
         ∃ st', uncheck_all st = some st'
           ∧ st'.current_aircraft = st.current_aircraft
           ∧ st'.current_filename = st.current_filename
           ∧ st'.active_vars = st.active_vars.map (fun _ => false)
           ∧ (∀ b, b ≠ a → alistLookup st'.states b = alistLookup st.states b)
           ∧ ∃ ast', alistLookup st'.states a = some ast'
               ∧ ast'.fileOrder = ast.fileOrder
               ∧ (∀ g, g ≠ f → alistLookup ast'.fileStates g = alistLookup ast.fileStates g)
               ∧ (∀ m, alistLookup ast.fileStates f = some m →
                   alistLookup ast'.fileStates f = some (m.map (fun p => (p.1, false))))
               ∧ (alistLookup ast.fileStates f = none →
                   alistLookup ast'.fileStates f = none)
     | _, _ => uncheck_all st = some st) := by
  obtain ⟨states, ca, cf, av⟩ := st
  cases ca with
  | none => cases cf <;> rfl
  | some a =>
    cases cf with
    | none => rfl
    | some f =>
      dsimp only
      cases ha : alistLookup states a with
      | none => simp [uncheck_all, ha]
      | some ast =>
        dsimp only
        cases hf : alistLookup ast.fileStates f with
        | none =>
          refine ⟨⟨alistSet states a ast, some a, some f, av.map (fun _ => false)⟩,
            by simp [uncheck_all, ha, hf], rfl, rfl, rfl, ?_, ast,
            alistLookup_set_self states a ast, rfl, ?_, ?_⟩
          · intro b hb
            exact alistLookup_set_other states a b ast hb
          · intro g _
            rfl
          · exact ⟨fun m hm => absurd hm (by simp), fun _ => hf⟩
        | some m =>
          refine ⟨⟨alistSet states a
              ⟨ast.fileOrder, alistSet ast.fileStates f (m.map (fun p => (p.1, false)))⟩,
              some a, some f, av.map (fun _ => false)⟩,
            by simp [uncheck_all, ha, hf], rfl, rfl, rfl, ?_, _,
            alistLookup_set_self states a _, rfl, ?_, ?_⟩
          · intro b hb
            exact alistLookup_set_other states a b _ hb
          · intro g hg
            exact alistLookup_set_other ast.fileStates f g _ hg
          · refine ⟨fun m2 hm2 => ?_, fun hn => absurd hn (by simp)⟩
            obtain rfl : m = m2 := by injection hm2
            exact alistLookup_set_self ast.fileStates f _

/-- C2 (counterexample): the content "202411 - hi" is parsed successfully
by _parse_version_info although the part before the separator has six
digits, not eight, because datetime.strptime with format "%Y%m%d" also
accepts an unpadded month and day. -/
theorem parse_version_info_six_digits_accepted :
    parse_version_info ("202411 - hi".data) = some ⟨202411, "hi".data⟩
    ∧ ("202411".data).length ≠ 8 := by decide

/-- C2 (amended): _parse_version_info returns a record exactly when the
content is non-empty and its first line, stripped, splits at the first
occurrence of " - " into a prefix and a remainder such that the stripped
prefix is accepted by datetime.strptime with format "%Y%m%d" (which
admits a valid calendar date written as four year digits followed by a
one- or two-digit month and day, so six- to eight-digit strings); the
record then holds the int() value of the stripped prefix and the
stripped remainder - everything after the first separator occurrence -
as the message. -/
theorem parse_version_info_characterization (content : List Char) (v : VersionInfo) :
    parse_version_info content = some v ↔
      (content ≠ [] ∧
       ∃ line0 rest pre post,
         content = line0 ++ rest
         ∧ (∀ c ∈ line0, c ≠ '\n')
         ∧ (rest = [] ∨ ∃ t, rest = '\n' :: t)
         ∧ pyStrip line0 = pre ++ sepDashes ++ post
         ∧ (∀ i < pre.length, ¬ occursAt sepDashes (pyStrip line0) i)
         ∧ (strptimeYmd (pyStrip pre)).isSome = true
         ∧ v = ⟨digitsToNat (pyStrip pre), pyStrip post⟩) := by
  constructor
  · intro h
    unfold parse_version_info at h
    by_cases hc : content = []
    · rw [if_pos hc] at h
      simp at h
    rw [if_neg hc] at h
    cases hsf : splitFirst sepDashes (pyStrip ((splitChar '\n' content).headD [])) with
    | none =>
      rw [hsf] at h
      simp at h
    | some pr =>
      obtain ⟨a, b⟩ := pr
      rw [hsf] at h
      simp only at h
      cases hst : strptimeYmd (pyStrip a) with
      | none =>
        rw [hst] at h
        simp at h
      | some ymd =>
        rw [hst] at h
        simp only at h
        injection h with hv
        have hL0 : (splitChar '\n' content).headD []
            = content.takeWhile (fun c => c ≠ '\n') := headD_splitChar '\n' content
        rw [hL0] at hsf
        have hsound := splitFirst_sound ' ' ['-', ' ']
          (pyStrip (content.takeWhile (fun c => c ≠ '\n'))) a b hsf
        refine ⟨hc, content.takeWhile (fun c => c ≠ '\n'),
          content.dropWhile (fun c => c ≠ '\n'), a, b,
          (List.takeWhile_append_dropWhile _ _).symm, ?_, ?_, ?_, ?_, ?_, hv.symm⟩
        · intro c hcm
          have := List.mem_takeWhile_imp hcm
          simpa using this
        · rcases dropWhile_shape (fun c => decide (c ≠ '\n')) content with h0 | ⟨c, t, ht, hpc⟩
          · exact Or.inl h0
          · right
            refine ⟨t, ?_⟩
            have hcn : c = '\n' := by simpa using hpc
            rwa [hcn] at ht
        · exact hsound.1
        · intro i hi
          have hfalse : beginsWith sepDashes
              ((pyStrip (content.takeWhile (fun c => c ≠ '\n'))).drop i) = false :=
            hsound.2 i hi
          intro h1
          unfold occursAt at h1
          rw [hfalse] at h1
          simp at h1
        · rw [hst]
          rfl
  · rintro ⟨hc, line0, rest, pre, post, hdecomp, hall, hrest, hsplit, hocc, hst, hv⟩
    have hdec := (takeWhile_decomp (fun c => decide (c ≠ '\n')) content line0 rest).mp
      ⟨hdecomp, fun c hcm => by simpa using hall c hcm, by
        rcases hrest with rfl | ⟨t, rfl⟩
        · exact Or.inl rfl
        · exact Or.inr ⟨'\n', t, rfl, by simp⟩⟩
    obtain ⟨hline0, _⟩ := hdec
    unfold parse_version_info
    rw [if_neg hc]
    have hL0 : (splitChar '\n' content).headD []
        = content.takeWhile (fun c => c ≠ '\n') := headD_splitChar '\n' content
    have hsf : splitFirst sepDashes (pyStrip ((splitChar '\n' content).headD []))
        = some (pre, post) := by
      rw [hL0, ← hline0]
      exact splitFirst_complete ' ' ['-', ' '] pre (pyStrip line0) post hsplit
        (fun i hi => Bool.eq_false_iff.mpr (hocc i hi))
    rw [hsf]
    dsimp only
    cases hstv : strptimeYmd (pyStrip pre) with
    | none =>
      rw [hstv] at hst
      simp at hst
    | some ymd =>
      simp [hv]

end FlightListChk
